import Mathlib

/-!
Shallow embedding of the streaming chat orchestration engine of
`my-local-ai-agent` (backend/src/agent/my_local_agent/route.py,
backend/src/conversation.py, backend/src/models.py).

The embedding models:
* the data model (`Role`, `ChatMessage`, tool calls) from `models.py`;
* message validation and append (`ChatMessage.validate`,
  `Conversation.add_message`) from `models.py`;
* the persistence layer calls (`add_user_message`, `add_assistant_message`,
  `add_tool_message`) from `conversation.py`, where a database insert is
  recorded as a `PersistRecord` carrying the `step` number computed by the
  source (message count after the in-memory append);
* the model-stream adapter `_stream_model_response`, the tool dispatcher
  `_execute_tools` and the orchestration loop
  `_stream_chat_with_tools_refactored` from `route.py`.

The model backend is abstracted by a list of `TurnScript`s: the frames the
backend delivers on each turn, plus an optional exception raised after those
frames (matching the `except` branch of `_stream_model_response`).  The tool
registry (`available_tools_default` in the source) is a parameter mapping a
tool name to a function from arguments to a result or a raised error.
Tracing/logging calls in the source are observability-only and are omitted.
-/

namespace LocalAgent

/-- Role of a chat message (`Role` enum in `models.py`). -/
inductive Role where
  | user
  | assistant
  | system
  | tool
deriving DecidableEq, Repr

/-- A tool-call argument value.  In the source the arguments are a dynamic
JSON dictionary that the orchestration engine passes through untouched; the
engine never inspects a value, so scalar payloads suffice to exercise every
dispatch path. -/
inductive JVal where
  | str (s : String)
  | num (n : Int)
  | boolean (b : Bool)
  | null
deriving DecidableEq, Repr

/-- A tool call as delivered by the model backend.  In the source this is the
dictionary `{"function": {"name": ..., "arguments": {...}}}`; a missing or
empty `function.name` (both falsy in Python) is modelled by `name = ""`. -/
structure ToolCall where
  name : String
  arguments : List (String × JVal)
deriving DecidableEq, Repr

/-- A chat message (`ChatMessage` dataclass in `models.py`).  Fields the
orchestration engine never sets (timestamps, uuid, token counts, metadata,
confidence) are omitted; they default to `None` in the source and do not
influence validation on the orchestration paths. -/
structure ChatMessage where
  role : Role
  content : String
  thinking : Option String := none
  tool_calls : Option (List ToolCall) := none
  tool_name : Option String := none
  model : Option String := none
deriving DecidableEq, Repr

/-- Python falsiness of an optional string (`None` or `""`). -/
def optStrFalsy : Option String → Bool
  | none => true
  | some s => s == ""

/-- Python falsiness of an optional tool-call list (`None` or `[]`). -/
def optCallsFalsy : Option (List ToolCall) → Bool
  | none => true
  | some l => l.isEmpty

/-- Error message raised by `ChatMessage.validate` when a message has no
content, no tool calls and no thinking. -/
def validationFailureMsg : String :=
  "Message must have either content or tool_calls or thinking"

/-- `ChatMessage.validate` (`models.py`): raises a `ValueError` when content,
tool_calls and thinking are all falsy.  The checks on `token_count` and
`processing_time_ms` can only fire for negative values, which the
orchestration engine never passes (it leaves them `None`). -/
def ChatMessage.validate (m : ChatMessage) : Except String Unit :=
  if m.content == "" && optCallsFalsy m.tool_calls && optStrFalsy m.thinking then
    .error validationFailureMsg
  else
    .ok ()

/-- `Conversation.add_message` (`models.py`): validate, then append to the
in-memory message list.  A validation failure propagates as the raised
exception and leaves the list unchanged. -/
def addMessage (messages : List ChatMessage) (m : ChatMessage) :
    Except String (List ChatMessage) :=
  match m.validate with
  | .error e => .error e
  | .ok _ => .ok (messages ++ [m])

/-- One database row written by `DatabaseManager.insert_message`, as invoked
from `ConversationManager.add_user_message` / `add_assistant_message` /
`add_tool_message` (`conversation.py`).  `step` is
`current_conversation.get_message_count()` evaluated after the in-memory
append. -/
structure PersistRecord where
  step : Nat
  role : Role
  content : String
  thinking : Option String := none
  tool_calls : Option (List ToolCall) := none
  tool_name : Option String := none
  model : Option String := none
deriving DecidableEq, Repr

/-- `ConversationManager.add_user_message` (`conversation.py`): build the
user `ChatMessage`, append it via `Conversation.add_message`, then insert a
row with `step = get_message_count()`. -/
def add_user_message (messages : List ChatMessage) (content : String)
    (model : Option String) :
    Except String (List ChatMessage × PersistRecord) :=
  let m : ChatMessage := { role := .user, content := content, model := model }
  match addMessage messages m with
  | .error e => .error e
  | .ok messages' =>
      .ok (messages',
        { step := messages'.length, role := .user, content := content,
          model := model })

/-- `ConversationManager.add_assistant_message` (`conversation.py`): build the
assistant `ChatMessage` with thinking and tool calls, append it, then insert a
row with `step = get_message_count()`. -/
def add_assistant_message (messages : List ChatMessage) (content : String)
    (thinking : Option String) (model : Option String)
    (tool_calls : Option (List ToolCall)) :
    Except String (List ChatMessage × PersistRecord) :=
  let m : ChatMessage :=
    { role := .assistant, content := content,
      thinking := thinking, tool_calls := tool_calls, model := model }
  match addMessage messages m with
  | .error e => .error e
  | .ok messages' =>
      .ok (messages',
        { step := messages'.length, role := .assistant, content := content,
          thinking := thinking, tool_calls := tool_calls, model := model })

/-- `ConversationManager.add_tool_message` (`conversation.py`): build the tool
`ChatMessage`, append it, then insert a row with
`step = get_message_count()`. -/
def add_tool_message (messages : List ChatMessage) (content : String)
    (tool_name : String) (model : Option String) :
    Except String (List ChatMessage × PersistRecord) :=
  let m : ChatMessage :=
    { role := .tool, content := content,
      tool_name := some tool_name, model := model }
  match addMessage messages m with
  | .error e => .error e
  | .ok messages' =>
      .ok (messages',
        { step := messages'.length, role := .tool, content := content,
          tool_name := some tool_name, model := model })

/-- An event on the newline-delimited JSON wire protocol, discriminated by its
`stage` field (route.py). -/
inductive Event where
  | metadata (conversation_id : Option Int)
  | thinking (response : String)
  | content (response : String)
  | toolResult (tool : String) (args : List (String × JVal)) (result : String)
  | toolError (tool : String) (error : String)
  | finalizeAnswer
  | error (response : String)
deriving DecidableEq, Repr

/-- A chunk yielded by `_stream_model_response` to the orchestration loop
(stages `thinking`, `content`, `tool_call_chunk`, `error` in the source). -/
inductive Chunk where
  | thinking (s : String)
  | content (s : String)
  | toolCallChunk (tc : ToolCall)
  | error (s : String)
deriving DecidableEq, Repr

/-- The `message` part of one incremental frame from the model backend.
Missing `thinking`/`content` fields (`msg.get` defaults) are the empty
string; a missing `tool_calls` field is the empty list. -/
structure FrameMessage where
  thinking : String := ""
  content : String := ""
  tool_calls : List ToolCall := []
deriving DecidableEq, Repr

/-- One incremental frame of the backend stream (`{message, done}`). -/
structure Frame where
  message : FrameMessage
  done : Bool
deriving DecidableEq, Repr

/-- Body of the `async for` in `_stream_model_response` for one frame: on a
non-terminal frame a non-empty `thinking` field is yielded, then a non-empty
`content` field; tool calls of any frame are each yielded as their own
`tool_call_chunk`. -/
def streamFrame (f : Frame) : List Chunk :=
  (if f.done then []
   else
     (if f.message.thinking == "" then [] else [.thinking f.message.thinking]) ++
     (if f.message.content == "" then [] else [.content f.message.content])) ++
  f.message.tool_calls.map .toolCallChunk

/-- What the model backend does on one turn: the frames it delivers, and
(optionally) the exception it raises after delivering them. -/
structure TurnScript where
  frames : List Frame
  raised : Option String := none
deriving DecidableEq, Repr

/-- `_stream_model_response` (route.py): iterate the backend frames, yielding
chunks per frame; if the backend raises, yield one `error` chunk
(`"Model communication error: ..."`) and re-raise (the re-raise is represented
by `raised` being `some` in the driving `TurnScript`). -/
def streamModelResponse (frames : List Frame) (raised : Option String) :
    List Chunk :=
  match frames with
  | [] =>
      match raised with
      | none => []
      | some e => [.error ("Model communication error: " ++ e)]
  | f :: fs => streamFrame f ++ streamModelResponse fs raised

/-- An observable action of the engine, in program order: an event emitted to
the caller, or a database row written. -/
inductive Action where
  | emit (e : Event)
  | persist (r : PersistRecord)
deriving DecidableEq, Repr

/-- The tool registry (`available_tools_default` in route.py): a tool name
resolves to a function from arguments to a result string, or raises. -/
def ToolRegistry : Type :=
  String → Option (List (String × JVal) → Except String String)

/-- Error message of the `ValueError` raised in `_execute_tools` when a tool
name does not resolve against the registry. -/
def notFoundMsg (name : String) : String :=
  "Tool '" ++ name ++ "' not found."

/-- One iteration of the `for tool_call in tool_calls` loop of
`_execute_tools` (route.py): skip silently on a falsy name; on an unresolved
name raise and catch a `ValueError`, yielding a `tool_error`; on a raising
tool yield a `tool_error`; on success persist the tool message (whose
validation may itself raise, caught by the same handler) and then yield the
`tool_result`.  Returns the actions of this iteration and the updated
in-memory message list. -/
def execOneTool (reg : ToolRegistry) (messages : List ChatMessage)
    (convModel : Option String) (tc : ToolCall) :
    List Action × List ChatMessage :=
  if tc.name == "" then
    ([], messages)
  else
    match reg tc.name with
    | none => ([.emit (.toolError tc.name (notFoundMsg tc.name))], messages)
    | some f =>
        match f tc.arguments with
        | .error e => ([.emit (.toolError tc.name e)], messages)
        | .ok result =>
            match add_tool_message messages result tc.name convModel with
            | .error e => ([.emit (.toolError tc.name e)], messages)
            | .ok (messages', rec) =>
                ([.persist rec,
                  .emit (.toolResult tc.name tc.arguments result)], messages')

/-- `_execute_tools` (route.py): dispatch the batch in order, with per-call
error isolation; the in-memory message list is threaded through the calls. -/
def executeTools (reg : ToolRegistry) (calls : List ToolCall)
    (messages : List ChatMessage) (convModel : Option String) :
    List Action × List ChatMessage :=
  match calls with
  | [] => ([], messages)
  | c :: cs =>
      let r1 := execOneTool reg messages convModel c
      let r2 := executeTools reg cs r1.2 convModel
      (r1.1 ++ r2.1, r2.2)

/-- The chunk-consumption loop of `_stream_chat_with_tools_refactored`
(route.py, `async for chunk in streamer`): forward `thinking`/`content`
chunks as events while accumulating them into `full_thinking`/`full_content`,
collect `tool_call_chunk`s into the turn batch, and ignore any other stage
(in particular the adapter's `error` chunk is not forwarded).  Returns
(forwarded actions, thinking parts, content parts, collected batch). -/
def consumeChunks : List Chunk →
    List Action × List String × List String × List ToolCall
  | [] => ([], [], [], [])
  | c :: cs =>
      let r := consumeChunks cs
      match c with
      | .thinking s => (.emit (.thinking s) :: r.1, s :: r.2.1, r.2.2.1, r.2.2.2)
      | .content s => (.emit (.content s) :: r.1, r.2.1, s :: r.2.2.1, r.2.2.2)
      | .toolCallChunk t => (r.1, r.2.1, r.2.2.1, t :: r.2.2.2)
      | .error _ => (r.1, r.2.1, r.2.2.1, r.2.2.2)

/-- Terminal condition of one request. -/
inductive Outcome where
  | finalized
  | errored
  | outOfScript
deriving DecidableEq, Repr

/-- The `while True` loop of `_stream_chat_with_tools_refactored` (route.py),
driven by one `TurnScript` per turn.  Each turn streams the model response,
persists the assistant message (content and thinking concatenated; the
collected batch is not passed to persistence), then either finalizes or
dispatches the batch and loops.  An exception from the adapter, or from
assistant-message validation, reaches the outer `except`, which yields one
`error` event (`"Chat loop error: ..."`) and re-raises.  An exhausted script
list marks the cut-off of the unbounded loop (`Outcome.outOfScript`). -/
def runLoop (reg : ToolRegistry) (model : String) (convModel : Option String) :
    List TurnScript → List ChatMessage →
    List Action × Outcome × List ChatMessage
  | [], messages => ([], .outOfScript, messages)
  | s :: rest, messages =>
      let r := consumeChunks (streamModelResponse s.frames s.raised)
      match s.raised with
      | some e =>
          (r.1 ++ [.emit (.error ("Chat loop error: " ++ e))], .errored, messages)
      | none =>
          match add_assistant_message messages (String.join r.2.2.1)
              (some (String.join r.2.1)) (some model) none with
          | .error e =>
              (r.1 ++ [.emit (.error ("Chat loop error: " ++ e))], .errored,
                messages)
          | .ok (messages', rec) =>
              if r.2.2.2.isEmpty then
                (r.1 ++ [.persist rec, .emit .finalizeAnswer], .finalized,
                  messages')
              else
                let t := executeTools reg r.2.2.2 messages' convModel
                let k := runLoop reg model convModel rest t.2
                (r.1 ++ [.persist rec] ++ t.1 ++ k.1, k.2.1, k.2.2)

/-- `_stream_chat_with_tools_refactored` top level (route.py): one `metadata`
event carrying the conversation id, then the turn loop. -/
def streamChat (reg : ToolRegistry) (model : String) (convModel : Option String)
    (conversation_id : Option Int) (scripts : List TurnScript)
    (messages : List ChatMessage) :
    List Action × Outcome × List ChatMessage :=
  let r := runLoop reg model convModel scripts messages
  (.emit (.metadata conversation_id) :: r.1, r.2.1, r.2.2)

/-- The events of an action trace, in emission order. -/
def eventsOf (as : List Action) : List Event :=
  as.filterMap fun a =>
    match a with
    | .emit e => some e
    | .persist _ => none

/-- The database rows of an action trace, in write order. -/
def persistsOf (as : List Action) : List PersistRecord :=
  as.filterMap fun a =>
    match a with
    | .persist r => some r
    | .emit _ => none

/-- Whether an event is one of the two terminal stages of the wire protocol
(`finalize_answer` or `error`). -/
def Event.isTerminal : Event → Bool
  | .finalizeAnswer => true
  | .error _ => true
  | _ => false

/-- Whether an event has stage `tool_result` or `tool_error`. -/
def Event.isToolStage : Event → Bool
  | .toolResult _ _ _ => true
  | .toolError _ _ => true
  | _ => false

/-- Whether an event has stage `error`. -/
def Event.isErrorStage : Event → Bool
  | .error _ => true
  | _ => false

/-- Whether an event has stage `thinking` or `content`. -/
def Event.isStreamStage : Event → Bool
  | .thinking _ => true
  | .content _ => true
  | _ => false

/-- Payloads of the `content` events of an event list, in order. -/
def contentPayloads (evs : List Event) : List String :=
  evs.filterMap fun e =>
    match e with
    | .content s => some s
    | _ => none

/-- Payloads of the `thinking` events of an event list, in order. -/
def thinkingPayloads (evs : List Event) : List String :=
  evs.filterMap fun e =>
    match e with
    | .thinking s => some s
    | _ => none

/-- The tool call carried by a `tool_call_chunk`, if any. -/
def chunkToolCall : Chunk → Option ToolCall
  | .toolCallChunk t => some t
  | _ => none

/-- The chunks appended by `_stream_model_response` after the frame loop when
the backend raised. -/
def adapterErrorTail : Option String → List Chunk
  | none => []
  | some e => [.error ("Model communication error: " ++ e)]

/-- Actions forwarded to the caller while streaming one turn. -/
def turnForward (s : TurnScript) : List Action :=
  (consumeChunks (streamModelResponse s.frames s.raised)).1

/-- `full_thinking` joined: the turn's accumulated thinking text. -/
def turnThinking (s : TurnScript) : String :=
  String.join (consumeChunks (streamModelResponse s.frames s.raised)).2.1

/-- `full_content` joined: the turn's accumulated assistant text. -/
def turnContent (s : TurnScript) : String :=
  String.join (consumeChunks (streamModelResponse s.frames s.raised)).2.2.1

/-- `tool_calls_this_turn`: the turn's collected tool-call batch. -/
def turnBatch (s : TurnScript) : List ToolCall :=
  (consumeChunks (streamModelResponse s.frames s.raised)).2.2.2

/-- All events a request emits to the caller. -/
def requestEvents (reg : ToolRegistry) (model : String)
    (convModel : Option String) (conversation_id : Option Int)
    (scripts : List TurnScript) (messages : List ChatMessage) : List Event :=
  eventsOf (streamChat reg model convModel conversation_id scripts messages).1

/-- One persistence call against the `ConversationManager`, any role. -/
inductive AppendReq where
  | user (content : String) (model : Option String)
  | assistant (content : String) (thinking : Option String)
      (model : Option String) (tool_calls : Option (List ToolCall))
  | tool (content : String) (tool_name : String) (model : Option String)
deriving DecidableEq, Repr

/-- Apply one persistence call to the in-memory message list. -/
def applyAppend (messages : List ChatMessage) :
    AppendReq → Except String (List ChatMessage × PersistRecord)
  | .user content model => add_user_message messages content model
  | .assistant content thinking model tool_calls =>
      add_assistant_message messages content thinking model tool_calls
  | .tool content tool_name model =>
      add_tool_message messages content tool_name model

/-- Run a sequence of persistence calls; a call whose validation raises leaves
the conversation unchanged (the exception propagates to that call's caller)
and later calls proceed from the unchanged state.  Returns the final message
list and the rows written for the successful (appended) calls, in order. -/
def runAppends (messages : List ChatMessage) :
    List AppendReq → List ChatMessage × List PersistRecord
  | [] => (messages, [])
  | q :: qs =>
      match applyAppend messages q with
      | .error _ => runAppends messages qs
      | .ok (messages', r) =>
          let k := runAppends messages' qs
          (k.1, r :: k.2)

/-- The step sequence `start+1, start+2, ..., start+n`. -/
def stepsFrom (start : Nat) : Nat → List Nat
  | 0 => []
  | n + 1 => (start + 1) :: stepsFrom (start + 1) n

/-- The single tool event `_execute_tools` emits for a tool call with a
non-empty name: `tool_error` on an unresolved name, a raising tool, or a
result whose tool-message validation raises; otherwise `tool_result`. -/
def toolEventFor (reg : ToolRegistry) (tc : ToolCall) : Event :=
  match reg tc.name with
  | none => .toolError tc.name (notFoundMsg tc.name)
  | some f =>
      match f tc.arguments with
      | .error e => .toolError tc.name e
      | .ok r =>
          if r == "" then .toolError tc.name validationFailureMsg
          else .toolResult tc.name tc.arguments r

/-- Scanner over an action trace: every `tool_result` emission must be
immediately preceded by the database write of a matching tool row (same
result as content, same tool name, role `tool`).  `prev` is the action
before the current position. -/
def toolResultGuarded : Option Action → List Action → Bool
  | _, [] => true
  | prev, a :: rest =>
      (match a, prev with
       | .emit (.toolResult n _ r), some (.persist rec) =>
           rec.role == .tool && rec.content == r && rec.tool_name == some n
       | .emit (.toolResult _ _ _), _ => false
       | _, _ => true) && toolResultGuarded (some a) rest

/-- The in-memory assistant message a normally-completing turn appends:
content and thinking are the turn's concatenations; `tool_calls` is `none`
because `_stream_chat_with_tools_refactored` does not pass the collected
batch to `add_assistant_message`. -/
def assistantMessage (s : TurnScript) (model : String) : ChatMessage :=
  { role := .assistant, content := turnContent s,
    thinking := some (turnThinking s), tool_calls := none,
    model := some model }

/-- The database row a normally-completing turn writes for its assistant
message. -/
def assistantRecord (messages : List ChatMessage) (s : TurnScript)
    (model : String) : PersistRecord :=
  { step := messages.length + 1, role := .assistant, content := turnContent s,
    thinking := some (turnThinking s), tool_calls := none,
    model := some model }

/-- Whether an action is the forwarding of a `thinking`/`content` event. -/
def Action.isStreamAction : Action → Bool
  | .emit e => e.isStreamStage
  | .persist _ => false

/-- Whether an action belongs to tool dispatch: a `tool_result`/`tool_error`
emission or a tool-row write. -/
def Action.isToolAction : Action → Bool
  | .emit e => e.isToolStage
  | .persist r => r.role == .tool

/-- Example tool call used in concrete runs. -/
def exCall : ToolCall := ⟨"get_weather", [("city", .str "Paris")]⟩

/-- A tool call whose `function.name` is missing (falsy). -/
def exNamelessCall : ToolCall := ⟨"", []⟩

/-- A registry resolving no tool name. -/
def emptyRegistry : ToolRegistry := fun _ => none

/-- A registry with one tool returning a fixed result. -/
def weatherRegistry : ToolRegistry :=
  fun n => if n == "get_weather" then some (fun _ => .ok "sunny") else none

/-- A turn whose frames carry content and one tool call. -/
def exTurnWithCall : TurnScript :=
  ⟨[⟨⟨"", "hi", [exCall]⟩, false⟩, ⟨⟨"", "", []⟩, true⟩], none⟩

/-- A final turn carrying thinking and content and no tool calls. -/
def exFinalTurn : TurnScript :=
  ⟨[⟨⟨"th", "done", []⟩, false⟩, ⟨⟨"", "", []⟩, true⟩], none⟩

/-- A turn in which the backend raises after one content frame. -/
def exRaisingTurn : TurnScript := ⟨[⟨⟨"", "par", []⟩, false⟩], some "boom"⟩

/-- A turn whose frames carry only a tool call: no content, no thinking. -/
def exBareToolTurn : TurnScript := ⟨[⟨⟨"", "", [exCall]⟩, false⟩], none⟩

theorem add_user_message_eq (messages : List ChatMessage) (content : String)
    (model : Option String) :
    add_user_message messages content model =
      if content == "" then .error validationFailureMsg
      else
        .ok (messages ++ [{ role := .user, content := content, model := model }],
          { step := messages.length + 1, role := .user, content := content,
            model := model }) := by
  cases h : content == "" <;>
    simp [add_user_message, addMessage, ChatMessage.validate, optCallsFalsy,
      optStrFalsy, h]

theorem add_assistant_message_eq (messages : List ChatMessage)
    (content : String) (thinking : Option String) (model : Option String)
    (tool_calls : Option (List ToolCall)) :
    add_assistant_message messages content thinking model tool_calls =
      if content == "" && optCallsFalsy tool_calls && optStrFalsy thinking then
        .error validationFailureMsg
      else
        .ok (messages ++
            [{ role := .assistant, content := content, thinking := thinking,
               tool_calls := tool_calls, model := model }],
          { step := messages.length + 1, role := .assistant,
            content := content, thinking := thinking,
            tool_calls := tool_calls, model := model }) := by
  cases h : content == "" && optCallsFalsy tool_calls && optStrFalsy thinking <;>
    simp [add_assistant_message, addMessage, ChatMessage.validate, h]

theorem add_tool_message_eq (messages : List ChatMessage) (content : String)
    (tool_name : String) (model : Option String) :
    add_tool_message messages content tool_name model =
      if content == "" then .error validationFailureMsg
      else
        .ok (messages ++
            [{ role := .tool, content := content,
               tool_name := some tool_name, model := model }],
          { step := messages.length + 1, role := .tool, content := content,
            tool_name := some tool_name, model := model }) := by
  cases h : content == "" <;>
    simp [add_tool_message, addMessage, ChatMessage.validate, optCallsFalsy,
      optStrFalsy, h]

theorem eventsOf_append (as bs : List Action) :
    eventsOf (as ++ bs) = eventsOf as ++ eventsOf bs := by
  simp [eventsOf, List.filterMap_append]

theorem persistsOf_append (as bs : List Action) :
    persistsOf (as ++ bs) = persistsOf as ++ persistsOf bs := by
  simp [persistsOf, List.filterMap_append]

theorem consumeChunks_append (xs ys : List Chunk) :
    consumeChunks (xs ++ ys) =
      ((consumeChunks xs).1 ++ (consumeChunks ys).1,
       (consumeChunks xs).2.1 ++ (consumeChunks ys).2.1,
       (consumeChunks xs).2.2.1 ++ (consumeChunks ys).2.2.1,
       (consumeChunks xs).2.2.2 ++ (consumeChunks ys).2.2.2) := by
  induction xs with
  | nil => simp [consumeChunks]
  | cons c cs ih => cases c <;> simp [consumeChunks, ih]

theorem streamModelResponse_eq (frames : List Frame) (raised : Option String) :
    streamModelResponse frames raised =
      (frames.map streamFrame).flatten ++ adapterErrorTail raised := by
  induction frames with
  | nil => cases raised <;> simp [streamModelResponse, adapterErrorTail]
  | cons f fs ih => simp [streamModelResponse, ih]

theorem consumeChunks_forward_stream (cs : List Chunk) :
    (consumeChunks cs).1.all Action.isStreamAction = true := by
  induction cs with
  | nil => simp [consumeChunks]
  | cons c cs ih =>
      cases c <;>
        simp [consumeChunks, Action.isStreamAction, Event.isStreamStage, ih]

theorem consumeChunks_forward_events (cs : List Chunk) :
    (eventsOf (consumeChunks cs).1).all Event.isStreamStage = true := by
  induction cs with
  | nil => simp [consumeChunks, eventsOf]
  | cons c cs ih =>
      cases c <;> simp_all [consumeChunks, eventsOf, Event.isStreamStage]

theorem consumeChunks_no_persists (cs : List Chunk) :
    persistsOf (consumeChunks cs).1 = [] := by
  induction cs with
  | nil => simp [consumeChunks, persistsOf]
  | cons c cs ih => cases c <;> simp_all [consumeChunks, persistsOf]

theorem contentPayloads_consumeChunks (cs : List Chunk) :
    contentPayloads (eventsOf (consumeChunks cs).1) = (consumeChunks cs).2.2.1 := by
  induction cs with
  | nil => simp [consumeChunks, eventsOf, contentPayloads]
  | cons c cs ih =>
      cases c <;> simp_all [consumeChunks, eventsOf, contentPayloads]

theorem thinkingPayloads_consumeChunks (cs : List Chunk) :
    thinkingPayloads (eventsOf (consumeChunks cs).1) = (consumeChunks cs).2.1 := by
  induction cs with
  | nil => simp [consumeChunks, eventsOf, thinkingPayloads]
  | cons c cs ih =>
      cases c <;> simp_all [consumeChunks, eventsOf, thinkingPayloads]

theorem execOneTool_actions_tool (reg : ToolRegistry)
    (messages : List ChatMessage) (convModel : Option String) (tc : ToolCall) :
    (execOneTool reg messages convModel tc).1.all Action.isToolAction = true := by
  unfold execOneTool
  split
  · simp
  · cases hr : reg tc.name with
    | none => simp [hr, Action.isToolAction, Event.isToolStage]
    | some f =>
        simp only [hr]
        cases hf : f tc.arguments with
        | error e => simp [hf, Action.isToolAction, Event.isToolStage]
        | ok r =>
            simp only [hf]
            rw [add_tool_message_eq]
            cases hre : r == "" <;>
              simp [hre, Action.isToolAction, Event.isToolStage]

theorem executeTools_actions_tool (reg : ToolRegistry) (calls : List ToolCall)
    (messages : List ChatMessage) (convModel : Option String) :
    (executeTools reg calls messages convModel).1.all Action.isToolAction
      = true := by
  induction calls generalizing messages with
  | nil => simp [executeTools]
  | cons c cs ih =>
      simp [executeTools, List.all_append, execOneTool_actions_tool, ih]

theorem execOneTool_events (reg : ToolRegistry) (messages : List ChatMessage)
    (convModel : Option String) (tc : ToolCall) :
    eventsOf (execOneTool reg messages convModel tc).1 =
      if tc.name == "" then [] else [toolEventFor reg tc] := by
  unfold execOneTool toolEventFor
  cases hn : tc.name == ""
  · simp only [hn, Bool.false_eq_true, if_false]
    cases hr : reg tc.name with
    | none => simp [eventsOf]
    | some f =>
        simp only
        cases hf : f tc.arguments with
        | error e => simp [eventsOf]
        | ok r =>
            simp only
            rw [add_tool_message_eq]
            cases hre : r == "" <;> simp [hre, eventsOf]
  · simp [hn, eventsOf]

theorem executeTools_events (reg : ToolRegistry) (calls : List ToolCall)
    (messages : List ChatMessage) (convModel : Option String) :
    eventsOf (executeTools reg calls messages convModel).1 =
      (calls.filter fun c => c.name != "").map (toolEventFor reg) := by
  induction calls generalizing messages with
  | nil => simp [executeTools, eventsOf]
  | cons c cs ih =>
      simp only [executeTools]
      rw [eventsOf_append, execOneTool_events, ih]
      cases hn : c.name == ""
      · have hne : ¬ c.name = "" := by simpa using hn
        simp [List.filter_cons, hn, hne]
      · have heq : c.name = "" := by simpa using hn
        simp [List.filter_cons, hn, heq]

theorem executeTools_guarded_aux (reg : ToolRegistry) (calls : List ToolCall)
    (messages : List ChatMessage) (convModel : Option String)
    (prev : Option Action) :
    toolResultGuarded prev (executeTools reg calls messages convModel).1
      = true := by
  induction calls generalizing messages prev with
  | nil => simp [executeTools, toolResultGuarded]
  | cons c cs ih =>
      simp only [executeTools, execOneTool]
      cases hn : c.name == ""
      · simp only [hn, Bool.false_eq_true, if_false]
        cases hr : reg c.name with
        | none => simp [toolResultGuarded, ih]
        | some f =>
            simp only
            cases hf : f c.arguments with
            | error e => simp [toolResultGuarded, ih]
            | ok r =>
                simp only
                rw [add_tool_message_eq]
                cases hre : r == "" <;> simp [hre, toolResultGuarded, ih]
      · simp [hn, ih]

theorem add_assistant_message_ok (messages : List ChatMessage)
    (content : String) (thinking : String) (model : Option String)
    (h : ¬(content = "" ∧ thinking = "")) :
    add_assistant_message messages content (some thinking) model none =
      .ok (messages ++
          [{ role := .assistant, content := content,
             thinking := some thinking, tool_calls := none, model := model }],
        { step := messages.length + 1, role := .assistant, content := content,
          thinking := some thinking, tool_calls := none, model := model }) := by
  rw [add_assistant_message_eq]
  have hc : (content == "" && optCallsFalsy none && optStrFalsy (some thinking))
      = false := by
    simp only [optCallsFalsy, optStrFalsy, Bool.and_true, Bool.true_and,
      Bool.and_eq_false_iff, beq_eq_false_iff_ne, ne_eq]
    tauto
  simp [hc]

theorem runLoop_cons_raised (reg : ToolRegistry) (model : String)
    (convModel : Option String) (s : TurnScript) (rest : List TurnScript)
    (messages : List ChatMessage) (e : String) (h : s.raised = some e) :
    runLoop reg model convModel (s :: rest) messages =
      (turnForward s ++ [.emit (.error ("Chat loop error: " ++ e))],
        .errored, messages) := by
  simp [runLoop, turnForward, h]

theorem runLoop_cons_validation_error (reg : ToolRegistry) (model : String)
    (convModel : Option String) (s : TurnScript) (rest : List TurnScript)
    (messages : List ChatMessage) (h : s.raised = none)
    (hc : turnContent s = "") (ht : turnThinking s = "") :
    runLoop reg model convModel (s :: rest) messages =
      (turnForward s ++
          [.emit (.error ("Chat loop error: " ++ validationFailureMsg))],
        .errored, messages) := by
  simp only [turnContent, h] at hc
  simp only [turnThinking, h] at ht
  simp [runLoop, turnForward, h, add_assistant_message_eq, hc, ht,
    optCallsFalsy, optStrFalsy]

theorem runLoop_cons_finalize (reg : ToolRegistry) (model : String)
    (convModel : Option String) (s : TurnScript) (rest : List TurnScript)
    (messages : List ChatMessage) (h : s.raised = none)
    (hv : ¬(turnContent s = "" ∧ turnThinking s = ""))
    (hb : turnBatch s = []) :
    runLoop reg model convModel (s :: rest) messages =
      (turnForward s ++
          [.persist (assistantRecord messages s model),
            .emit .finalizeAnswer],
        .finalized, messages ++ [assistantMessage s model]) := by
  have hv' : ¬(String.join
        (consumeChunks (streamModelResponse s.frames none)).2.2.1 = "" ∧
      String.join (consumeChunks (streamModelResponse s.frames none)).2.1
        = "") := by
    simpa [turnContent, turnThinking, h] using hv
  have hb' : (consumeChunks (streamModelResponse s.frames none)).2.2.2
      = [] := by
    simpa [turnBatch, h] using hb
  simp only [runLoop, h]
  rw [add_assistant_message_ok _ _ _ _ hv']
  simp [hb', turnForward, assistantRecord, assistantMessage, turnContent,
    turnThinking, h]

theorem runLoop_cons_dispatch (reg : ToolRegistry) (model : String)
    (convModel : Option String) (s : TurnScript) (rest : List TurnScript)
    (messages : List ChatMessage) (h : s.raised = none)
    (hv : ¬(turnContent s = "" ∧ turnThinking s = ""))
    (hb : turnBatch s ≠ []) :
    runLoop reg model convModel (s :: rest) messages =
      (turnForward s ++ [.persist (assistantRecord messages s model)]
          ++ (executeTools reg (turnBatch s)
              (messages ++ [assistantMessage s model]) convModel).1
          ++ (runLoop reg model convModel rest
              (executeTools reg (turnBatch s)
                (messages ++ [assistantMessage s model]) convModel).2).1,
        (runLoop reg model convModel rest
            (executeTools reg (turnBatch s)
              (messages ++ [assistantMessage s model]) convModel).2).2.1,
        (runLoop reg model convModel rest
            (executeTools reg (turnBatch s)
              (messages ++ [assistantMessage s model]) convModel).2).2.2) := by
  have hv' : ¬(String.join
        (consumeChunks (streamModelResponse s.frames none)).2.2.1 = "" ∧
      String.join (consumeChunks (streamModelResponse s.frames none)).2.1
        = "") := by
    simpa [turnContent, turnThinking, h] using hv
  have hb' : ¬((consumeChunks (streamModelResponse s.frames none)).2.2.2
      = []) := by
    simpa [turnBatch, h] using hb
  simp only [runLoop, h]
  rw [add_assistant_message_ok _ _ _ _ hv']
  simp [hb', turnForward, turnBatch, assistantRecord, assistantMessage,
    turnContent, turnThinking, h, List.isEmpty_iff]

theorem all_stream_not_terminal (evs : List Event)
    (h : evs.all Event.isStreamStage = true) :
    evs.all (fun e => !e.isTerminal) = true := by
  induction evs with
  | nil => simp
  | cons e es ih =>
      simp only [List.all_cons, Bool.and_eq_true] at h ⊢
      exact ⟨by cases e <;> simp_all [Event.isStreamStage, Event.isTerminal],
        ih h.2⟩

theorem all_tool_not_terminal (evs : List Event)
    (h : evs.all Event.isToolStage = true) :
    evs.all (fun e => !e.isTerminal) = true := by
  induction evs with
  | nil => simp
  | cons e es ih =>
      simp only [List.all_cons, Bool.and_eq_true] at h ⊢
      exact ⟨by cases e <;> simp_all [Event.isToolStage, Event.isTerminal],
        ih h.2⟩

theorem events_tool_stage_of_actions (as : List Action)
    (h : as.all Action.isToolAction = true) :
    (eventsOf as).all Event.isToolStage = true := by
  induction as with
  | nil => simp [eventsOf]
  | cons a rest ih =>
      simp only [List.all_cons, Bool.and_eq_true] at h
      cases a <;> simp_all [eventsOf, Action.isToolAction]

theorem turnForward_events_not_terminal (s : TurnScript) :
    (eventsOf (turnForward s)).all (fun e => !e.isTerminal) = true :=
  all_stream_not_terminal _
    (consumeChunks_forward_events (streamModelResponse s.frames s.raised))

theorem executeTools_events_not_terminal (reg : ToolRegistry)
    (calls : List ToolCall) (messages : List ChatMessage)
    (convModel : Option String) :
    (eventsOf (executeTools reg calls messages convModel).1).all
      (fun e => !e.isTerminal) = true :=
  all_tool_not_terminal _
    (events_tool_stage_of_actions _
      (executeTools_actions_tool reg calls messages convModel))

theorem no_terminal_split (l : List Event)
    (hl : l.all (fun e => !e.isTerminal) = true) (pre : List Event)
    (t : Event) (post : List Event) (hsplit : l = pre ++ t :: post)
    (ht : t.isTerminal = true) : post = [] := by
  exfalso
  have hmem : t ∈ l := by
    rw [hsplit]
    exact List.mem_append.mpr (Or.inr (List.mem_cons_self _ _))
  have := List.all_eq_true.mp hl t hmem
  simp [ht] at this

theorem eventsOf_persist_one (r : PersistRecord) :
    eventsOf [Action.persist r] = [] := rfl

theorem eventsOf_emit_one (e : Event) :
    eventsOf [Action.emit e] = [e] := rfl

theorem last_only_terminal (body : List Event) (t : Event)
    (hb : body.all (fun e => !e.isTerminal) = true) :
    ∀ (pre : List Event) (u : Event) (post : List Event),
      body ++ [t] = pre ++ u :: post → u.isTerminal = true → post = [] := by
  induction body with
  | nil =>
      intro pre u post h _
      cases pre with
      | nil =>
          simp only [List.nil_append, List.cons.injEq] at h
          exact h.2.symm
      | cons p ps =>
          simp only [List.nil_append, List.cons_append, List.cons.injEq] at h
          exact absurd h.2.symm (by simp)
  | cons b bs ih =>
      intro pre u post h hu
      simp only [List.all_cons, Bool.and_eq_true] at hb
      cases pre with
      | nil =>
          simp only [List.cons_append, List.nil_append, List.cons.injEq] at h
          exfalso
          rw [← h.1] at hu
          simp [hu] at hb
      | cons p ps =>
          simp only [List.cons_append, List.cons.injEq] at h
          exact ih hb.2 ps u post h.2 hu

theorem runLoop_terminal_shape (reg : ToolRegistry) (model : String)
    (convModel : Option String) (scripts : List TurnScript) :
    ∀ (messages : List ChatMessage),
      ((runLoop reg model convModel scripts messages).2.1 = .outOfScript ∧
        (eventsOf (runLoop reg model convModel scripts messages).1).all
          (fun e => !e.isTerminal) = true) ∨
      (∃ body t,
          eventsOf (runLoop reg model convModel scripts messages).1
            = body ++ [t] ∧
          body.all (fun e => !e.isTerminal) = true ∧
          t.isTerminal = true ∧
          (runLoop reg model convModel scripts messages).2.1
            ≠ .outOfScript) := by
  induction scripts with
  | nil => intro messages; left; simp [runLoop, eventsOf]
  | cons s rest ih =>
      intro messages
      cases hr : s.raised with
      | some e =>
          right
          rw [runLoop_cons_raised reg model convModel s rest messages e hr]
          refine ⟨eventsOf (turnForward s), .error ("Chat loop error: " ++ e),
            ?_, turnForward_events_not_terminal s, rfl, by simp⟩
          rw [eventsOf_append, eventsOf_emit_one]
      | none =>
          by_cases hvc : turnContent s = "" ∧ turnThinking s = ""
          · right
            rw [runLoop_cons_validation_error reg model convModel s rest
              messages hr hvc.1 hvc.2]
            refine ⟨eventsOf (turnForward s),
              .error ("Chat loop error: " ++ validationFailureMsg),
              ?_, turnForward_events_not_terminal s, rfl, by simp⟩
            rw [eventsOf_append, eventsOf_emit_one]
          · by_cases hb : turnBatch s = []
            · right
              rw [runLoop_cons_finalize reg model convModel s rest messages
                hr hvc hb]
              refine ⟨eventsOf (turnForward s), .finalizeAnswer,
                ?_, turnForward_events_not_terminal s, rfl, by simp⟩
              have : [Action.persist (assistantRecord messages s model),
                  Action.emit Event.finalizeAnswer]
                  = [Action.persist (assistantRecord messages s model)]
                    ++ [Action.emit Event.finalizeAnswer] := rfl
              rw [eventsOf_append, this, eventsOf_append,
                eventsOf_persist_one, eventsOf_emit_one, List.nil_append]
            · rw [runLoop_cons_dispatch reg model convModel s rest messages
                hr hvc hb]
              rcases ih (executeTools reg (turnBatch s)
                  (messages ++ [assistantMessage s model]) convModel).2 with
                ⟨hout, hall⟩ | ⟨body, t, hevs, hball, htt, hout⟩
              · left
                refine ⟨hout, ?_⟩
                rw [eventsOf_append, eventsOf_append, eventsOf_append,
                  eventsOf_persist_one, List.append_nil]
                simp only [List.all_append, Bool.and_eq_true]
                exact ⟨⟨turnForward_events_not_terminal s,
                  executeTools_events_not_terminal reg (turnBatch s)
                    (messages ++ [assistantMessage s model]) convModel⟩,
                  hall⟩
              · right
                refine ⟨eventsOf (turnForward s)
                    ++ (eventsOf (executeTools reg (turnBatch s)
                      (messages ++ [assistantMessage s model]) convModel).1
                    ++ body), t, ?_, ?_, htt, hout⟩
                · rw [eventsOf_append, eventsOf_append, eventsOf_append,
                    eventsOf_persist_one, List.append_nil, hevs]
                  simp [List.append_assoc]
                · simp only [List.all_append, Bool.and_eq_true]
                  exact ⟨turnForward_events_not_terminal s,
                    executeTools_events_not_terminal reg (turnBatch s)
                      (messages ++ [assistantMessage s model]) convModel,
                    hball⟩

theorem filter_error_of_stream (evs : List Event)
    (h : evs.all Event.isStreamStage = true) :
    evs.filter Event.isErrorStage = [] := by
  induction evs with
  | nil => simp
  | cons e es ih =>
      simp only [List.all_cons, Bool.and_eq_true] at h
      have := ih h.2
      cases e <;>
        simp_all [Event.isStreamStage, Event.isErrorStage, List.filter_cons]

theorem filterMap_chunkToolCall_map (l : List ToolCall) :
    l.filterMap (chunkToolCall ∘ Chunk.toolCallChunk) = l := by
  induction l with
  | nil => simp
  | cons t ts ih => simp [Function.comp, chunkToolCall, ih]

theorem streamFrame_toolCalls (fr : Frame) :
    (streamFrame fr).filterMap chunkToolCall = fr.message.tool_calls := by
  unfold streamFrame
  cases fr.done <;>
    cases h1 : fr.message.thinking == "" <;>
      cases h2 : fr.message.content == "" <;>
        simp [chunkToolCall, List.filterMap_append,
          filterMap_chunkToolCall_map]

theorem streamModelResponse_toolCalls (frames : List Frame)
    (raised : Option String) :
    (streamModelResponse frames raised).filterMap chunkToolCall
      = (frames.map fun fr => fr.message.tool_calls).flatten := by
  induction frames with
  | nil => cases raised <;> simp [streamModelResponse, chunkToolCall]
  | cons f fs ih =>
      simp [streamModelResponse, List.filterMap_append, streamFrame_toolCalls,
        ih]

theorem applyAppend_ok (messages : List ChatMessage) (q : AppendReq)
    (messages' : List ChatMessage) (r : PersistRecord)
    (h : applyAppend messages q = .ok (messages', r)) :
    messages'.length = messages.length + 1 ∧ r.step = messages.length + 1 := by
  cases q with
  | user content model =>
      simp only [applyAppend] at h
      rw [add_user_message_eq] at h
      split at h
      · exact absurd h (by simp)
      · simp only [Except.ok.injEq, Prod.mk.injEq] at h
        obtain ⟨h1, h2⟩ := h
        constructor
        · rw [← h1]; simp
        · rw [← h2]
  | assistant content thinking model tool_calls =>
      simp only [applyAppend] at h
      rw [add_assistant_message_eq] at h
      split at h
      · exact absurd h (by simp)
      · simp only [Except.ok.injEq, Prod.mk.injEq] at h
        obtain ⟨h1, h2⟩ := h
        constructor
        · rw [← h1]; simp
        · rw [← h2]
  | tool content tool_name model =>
      simp only [applyAppend] at h
      rw [add_tool_message_eq] at h
      split at h
      · exact absurd h (by simp)
      · simp only [Except.ok.injEq, Prod.mk.injEq] at h
        obtain ⟨h1, h2⟩ := h
        constructor
        · rw [← h1]; simp
        · rw [← h2]

/-- C4 counterexample: a batch containing one tool call (whose
`function.name` is missing) is dispatched with zero `tool_result`/`tool_error`
events, refuting "for a batch of k tool calls exactly k such events are
emitted": the dispatcher silently skips calls with a falsy name. -/
theorem C4_counterexample :
    [exNamelessCall].length = 1 ∧
    eventsOf (executeTools emptyRegistry [exNamelessCall] [] none).1 = [] := by
  exact ⟨rfl, by decide⟩

/-- C4 (amended): dispatching a batch emits exactly one `tool_result` or
`tool_error` event per call whose name is non-empty, in batch order; calls
with an empty/missing name are skipped silently and emit nothing. -/
theorem C4_tool_events_in_call_order (reg : ToolRegistry)
    (calls : List ToolCall) (messages : List ChatMessage)
    (convModel : Option String) :
    eventsOf (executeTools reg calls messages convModel).1
      = (calls.filter fun c => c.name != "").map (toolEventFor reg) :=
  executeTools_events reg calls messages convModel

/-- C5: a tool call whose non-empty name does not resolve against the
registry produces exactly one `tool_error` event carrying the not-found
message, persists nothing (the message list is passed on unchanged), and the
remaining calls of the batch are still dispatched. -/
theorem C5_unresolved_tool_one_error_no_persist (reg : ToolRegistry)
    (c : ToolCall) (cs : List ToolCall) (messages : List ChatMessage)
    (convModel : Option String) (h1 : c.name ≠ "")
    (h2 : reg c.name = none) :
    executeTools reg (c :: cs) messages convModel =
      (.emit (.toolError c.name (notFoundMsg c.name))
          :: (executeTools reg cs messages convModel).1,
        (executeTools reg cs messages convModel).2) := by
  have hb : (c.name == "") = false := by simpa using h1
  simp [executeTools, execOneTool, hb, h2]

/-- C5 witness: the unresolved call `get_weather` against the empty registry
emits exactly the not-found `tool_error` and leaves the conversation
unchanged. -/
theorem C5_witness :
    exCall.name ≠ "" ∧ emptyRegistry exCall.name = none ∧
    executeTools emptyRegistry [exCall] [] none =
      ([.emit (.toolError exCall.name (notFoundMsg exCall.name))], []) :=
  ⟨by decide, rfl,
    (C5_unresolved_tool_one_error_no_persist emptyRegistry exCall [] [] none
      (by decide) rfl).trans rfl⟩

/-- C9: the step numbers under which messages are persisted increase by
exactly one per appended message, regardless of role: running any sequence of
persistence calls from a conversation of n messages writes rows with steps
n+1, n+2, ... for the calls that append. -/
theorem C9_persisted_steps_increase_by_one (messages : List ChatMessage)
    (reqs : List AppendReq) :
    (runAppends messages reqs).2.map PersistRecord.step
      = stepsFrom messages.length ((runAppends messages reqs).2.length) := by
  induction reqs generalizing messages with
  | nil => simp [runAppends, stepsFrom]
  | cons q qs ih =>
      simp only [runAppends]
      cases hq : applyAppend messages q with
      | error e => exact ih messages
      | ok pr =>
          obtain ⟨messages', r⟩ := pr
          have hlen := applyAppend_ok messages q messages' r hq
          simp only [List.map_cons, List.length_cons, stepsFrom]
          rw [hlen.2, ih messages', hlen.1]

/-- C10: in the dispatcher's trace, every `tool_result` emission is
immediately preceded by the database write of the matching tool row (role
`tool`, same result content, same tool name): the caller can only observe a
`tool_result` after its tool message was persisted. -/
theorem C10_tool_row_persisted_before_result (reg : ToolRegistry)
    (calls : List ToolCall) (messages : List ChatMessage)
    (convModel : Option String) :
    toolResultGuarded none (executeTools reg calls messages convModel).1
      = true :=
  executeTools_guarded_aux reg calls messages convModel none

/-- C6: on a turn in which the model emitted at least one tool call but no
content token and no thinking token, persisting the assistant message raises
the validation error (content, tool_calls and thinking are all falsy, the
collected batch not being passed to persistence), so the loop emits one
`error` event and terminates errored without dispatching the batch: the
trace ends at the error, the conversation is unchanged, and no tool event or
tool row is produced. -/
theorem C6_toolcalls_only_turn_validation_error (reg : ToolRegistry)
    (model : String) (convModel : Option String) (s : TurnScript)
    (rest : List TurnScript) (messages : List ChatMessage)
    (h : s.raised = none) (hc : turnContent s = "") (ht : turnThinking s = "")
    (hb : turnBatch s ≠ []) :
    runLoop reg model convModel (s :: rest) messages =
      (turnForward s ++
          [.emit (.error ("Chat loop error: " ++ validationFailureMsg))],
        .errored, messages) :=
  runLoop_cons_validation_error reg model convModel s rest messages h hc ht

/-- C6 witness: a single turn carrying only a tool call takes the error path
with the validation message and dispatches nothing. -/
theorem C6_witness :
    exBareToolTurn.raised = none ∧ turnContent exBareToolTurn = "" ∧
    turnThinking exBareToolTurn = "" ∧ turnBatch exBareToolTurn ≠ [] ∧
    runLoop weatherRegistry "m" (some "m") [exBareToolTurn] [] =
      (turnForward exBareToolTurn ++
          [.emit (.error ("Chat loop error: " ++ validationFailureMsg))],
        .errored, []) :=
  ⟨rfl, by decide, by decide, by decide,
    C6_toolcalls_only_turn_validation_error weatherRegistry "m" (some "m")
      exBareToolTurn [] [] rfl (by decide) (by decide) (by decide)⟩

/-- C7: on a turn that completes normally and whose assistant message passes
validation, the persisted assistant row's `content` equals the concatenation
of the payloads of the `content` events the turn emitted, in emission
order. -/
theorem C7_content_concatenation_persisted (reg : ToolRegistry)
    (model : String) (convModel : Option String) (s : TurnScript)
    (rest : List TurnScript) (messages : List ChatMessage)
    (h : s.raised = none)
    (hv : turnContent s ≠ "" ∨ turnThinking s ≠ "") :
    ∃ tail, (runLoop reg model convModel (s :: rest) messages).1
        = turnForward s ++ .persist (assistantRecord messages s model) :: tail
      ∧ (assistantRecord messages s model).content
          = String.join (contentPayloads (eventsOf (turnForward s)))
      ∧ (assistantRecord messages s model).role = .assistant := by
  have hv' : ¬(turnContent s = "" ∧ turnThinking s = "") := by tauto
  have hcontent : (assistantRecord messages s model).content
      = String.join (contentPayloads (eventsOf (turnForward s))) := by
    simp only [assistantRecord, turnForward]
    rw [contentPayloads_consumeChunks]
    simp [turnContent]
  by_cases hb : turnBatch s = []
  · refine ⟨[Action.emit Event.finalizeAnswer], ?_, hcontent, rfl⟩
    rw [runLoop_cons_finalize reg model convModel s rest messages h hv' hb]
  · refine ⟨(executeTools reg (turnBatch s)
        (messages ++ [assistantMessage s model]) convModel).1
      ++ (runLoop reg model convModel rest
        (executeTools reg (turnBatch s)
          (messages ++ [assistantMessage s model]) convModel).2).1, ?_,
      hcontent, rfl⟩
    rw [runLoop_cons_dispatch reg model convModel s rest messages h hv' hb]
    simp [List.append_assoc]

/-- C7 witness: a final turn with content `"done"` persists an assistant row
whose content equals the joined content payloads. -/
theorem C7_witness :
    exFinalTurn.raised = none ∧
    (turnContent exFinalTurn ≠ "" ∨ turnThinking exFinalTurn ≠ "") ∧
    (∃ tail, (runLoop weatherRegistry "m" (some "m") [exFinalTurn] []).1
        = turnForward exFinalTurn
            ++ .persist (assistantRecord [] exFinalTurn "m") :: tail
      ∧ (assistantRecord [] exFinalTurn "m").content
          = String.join (contentPayloads (eventsOf (turnForward exFinalTurn)))
      ∧ (assistantRecord [] exFinalTurn "m").role = .assistant) :=
  ⟨rfl, Or.inl (by decide),
    C7_content_concatenation_persisted weatherRegistry "m" (some "m")
      exFinalTurn [] [] rfl (Or.inl (by decide))⟩

/-- C8: on a non-terminal frame the adapter yields the `thinking` chunk when
non-empty, then the `content` chunk when non-empty, in that order; tool-call
fragments of every frame (terminal included) are each yielded individually,
so the sequence of yielded tool calls is exactly the concatenation of the
frames' tool-call lists (no merging); and the whole stream is the per-frame
yields followed by the error tail. -/
theorem C8_adapter_frame_behavior (frames : List Frame)
    (raised : Option String) (f : Frame) (hf : f.done = false) :
    streamFrame f =
        (if f.message.thinking == "" then []
          else [Chunk.thinking f.message.thinking])
          ++ (if f.message.content == "" then []
            else [Chunk.content f.message.content])
          ++ f.message.tool_calls.map Chunk.toolCallChunk ∧
    (streamModelResponse frames raised).filterMap chunkToolCall
        = (frames.map fun fr => fr.message.tool_calls).flatten ∧
    streamModelResponse frames raised
        = (frames.map streamFrame).flatten ++ adapterErrorTail raised := by
  refine ⟨?_, streamModelResponse_toolCalls frames raised,
    streamModelResponse_eq frames raised⟩
  unfold streamFrame
  simp [hf]

/-- C8 witness: a concrete non-terminal frame with thinking, content and a
tool call, inside a stream of two frames. -/
theorem C8_witness :
    (⟨⟨"th", "hi", [exCall]⟩, false⟩ : Frame).done = false ∧
    (streamFrame ⟨⟨"th", "hi", [exCall]⟩, false⟩ =
        (if ((⟨⟨"th", "hi", [exCall]⟩, false⟩ : Frame)).message.thinking == ""
          then []
          else [Chunk.thinking
            ((⟨⟨"th", "hi", [exCall]⟩, false⟩ : Frame)).message.thinking])
          ++ (if ((⟨⟨"th", "hi", [exCall]⟩, false⟩ : Frame)).message.content
                == "" then []
            else [Chunk.content
              ((⟨⟨"th", "hi", [exCall]⟩, false⟩ : Frame)).message.content])
          ++ ((⟨⟨"th", "hi", [exCall]⟩, false⟩ : Frame)).message.tool_calls.map
            Chunk.toolCallChunk ∧
      (streamModelResponse exTurnWithCall.frames none).filterMap chunkToolCall
          = (exTurnWithCall.frames.map fun fr => fr.message.tool_calls).flatten ∧
      streamModelResponse exTurnWithCall.frames none
          = (exTurnWithCall.frames.map streamFrame).flatten
            ++ adapterErrorTail none) :=
  ⟨rfl, C8_adapter_frame_behavior exTurnWithCall.frames none
    ⟨⟨"th", "hi", [exCall]⟩, false⟩ rfl⟩

/-- C1 counterexample: a turn with content `"hi"` and a non-empty collected
batch persists exactly one assistant row whose `tool_calls` field is `none`,
not the collected batch: `_stream_chat_with_tools_refactored` does not pass
`tool_calls_this_turn` to `add_assistant_message`. -/
theorem C1_counterexample :
    turnBatch exTurnWithCall = [exCall] ∧
    persistsOf (streamChat emptyRegistry "m" (some "m") (some 1)
        [exTurnWithCall] []).1
      = [{ step := 1, role := .assistant, content := "hi",
           thinking := some "", tool_calls := none, model := some "m" }] ∧
    (none : Option (List ToolCall)) ≠ some [exCall] :=
  ⟨by decide, by decide, by decide⟩

/-- C1 (amended): on a turn ending in a normal stream completion whose
assistant message passes validation and whose batch is non-empty, the loop
persists exactly one assistant row — content the concatenation of the turn's
content events, thinking the concatenation of its thinking events, and
`tool_calls` always `none` (the collected batch is not passed to
persistence) — and this write occurs before any dispatch action of the same
turn; the forwarded stream segment itself contains no database write. -/
theorem C1_assistant_persist_before_dispatch (reg : ToolRegistry)
    (model : String) (convModel : Option String) (s : TurnScript)
    (rest : List TurnScript) (messages : List ChatMessage)
    (h : s.raised = none)
    (hv : turnContent s ≠ "" ∨ turnThinking s ≠ "")
    (hb : turnBatch s ≠ []) :
    (runLoop reg model convModel (s :: rest) messages).1 =
      turnForward s ++ [.persist (assistantRecord messages s model)]
        ++ (executeTools reg (turnBatch s)
          (messages ++ [assistantMessage s model]) convModel).1
        ++ (runLoop reg model convModel rest
          (executeTools reg (turnBatch s)
            (messages ++ [assistantMessage s model]) convModel).2).1
    ∧ persistsOf (turnForward s) = [] := by
  have hv' : ¬(turnContent s = "" ∧ turnThinking s = "") := by tauto
  constructor
  · rw [runLoop_cons_dispatch reg model convModel s rest messages h hv' hb]
  · exact consumeChunks_no_persists _

/-- C1 witness: the content-plus-tool-call turn against the weather registry,
instantiating the amended statement. -/
theorem C1_witness :
    exTurnWithCall.raised = none ∧
    (turnContent exTurnWithCall ≠ "" ∨ turnThinking exTurnWithCall ≠ "") ∧
    turnBatch exTurnWithCall ≠ [] ∧
    ((runLoop weatherRegistry "m" (some "m") [exTurnWithCall] []).1 =
        turnForward exTurnWithCall
          ++ [.persist (assistantRecord [] exTurnWithCall "m")]
          ++ (executeTools weatherRegistry (turnBatch exTurnWithCall)
            ([] ++ [assistantMessage exTurnWithCall "m"]) (some "m")).1
          ++ (runLoop weatherRegistry "m" (some "m") []
            (executeTools weatherRegistry (turnBatch exTurnWithCall)
              ([] ++ [assistantMessage exTurnWithCall "m"]) (some "m")).2).1
      ∧ persistsOf (turnForward exTurnWithCall) = []) :=
  ⟨rfl, Or.inl (by decide), by decide,
    C1_assistant_persist_before_dispatch weatherRegistry "m" (some "m")
      exTurnWithCall [] [] rfl (Or.inl (by decide)) (by decide)⟩

/-- C2 counterexample: when the backend raises after a content frame, the
adapter yields its own Error event, but the orchestration loop does not
forward that event: the only error the caller sees is the loop's synthesized
`"Chat loop error: ..."` event, so the claim "forwards the Error event
already emitted by the adapter, synthesizing one only if the adapter failed
before emitting it" is false on this input. -/
theorem C2_counterexample :
    streamModelResponse exRaisingTurn.frames exRaisingTurn.raised
      = [.content "par", .error "Model communication error: boom"] ∧
    requestEvents emptyRegistry "m" (some "m") none [exRaisingTurn] []
      = [.metadata none, .content "par", .error "Chat loop error: boom"] ∧
    Event.error "Model communication error: boom"
      ∉ requestEvents emptyRegistry "m" (some "m") none [exRaisingTurn] [] :=
  ⟨by decide, by decide, by decide⟩

/-- C2 (amended): on any exception surfaced from the model stream, the loop
drops the adapter's Error event and always synthesizes its own
(`"Chat loop error: ..."`) after the forwarded partial output, terminates
errored (the exception is re-raised), and the caller observes exactly one
error event for the failure. -/
theorem C2_synthesized_single_error (reg : ToolRegistry) (model : String)
    (convModel : Option String) (cid : Option Int) (s : TurnScript)
    (rest : List TurnScript) (messages : List ChatMessage) (e : String)
    (h : s.raised = some e) :
    (streamChat reg model convModel cid (s :: rest) messages).1
        = .emit (.metadata cid)
            :: (turnForward s
              ++ [.emit (.error ("Chat loop error: " ++ e))]) ∧
    (streamChat reg model convModel cid (s :: rest) messages).2.1
        = .errored ∧
    ((requestEvents reg model convModel cid (s :: rest) messages).filter
        Event.isErrorStage).length = 1 := by
  have hloop := runLoop_cons_raised reg model convModel s rest messages e h
  have hfe : (eventsOf (turnForward s)).filter Event.isErrorStage = [] :=
    filter_error_of_stream _
      (consumeChunks_forward_events (streamModelResponse s.frames s.raised))
  refine ⟨?_, ?_, ?_⟩
  · simp [streamChat, hloop]
  · simp [streamChat, hloop]
  · have hreq : requestEvents reg model convModel cid (s :: rest) messages
        = .metadata cid :: (eventsOf (turnForward s)
          ++ [.error ("Chat loop error: " ++ e)]) := by
      simp [requestEvents, streamChat, hloop, eventsOf,
        List.filterMap_append]
    rw [hreq]
    simp [List.filter_cons, List.filter_append, Event.isErrorStage, hfe]

/-- C2 witness: the raising turn, instantiated. -/
theorem C2_witness :
    exRaisingTurn.raised = some "boom" ∧
    ((streamChat emptyRegistry "m" (some "m") (some 7) [exRaisingTurn] []).1
        = .emit (.metadata (some 7))
            :: (turnForward exRaisingTurn
              ++ [.emit (.error ("Chat loop error: " ++ "boom"))]) ∧
      (streamChat emptyRegistry "m" (some "m") (some 7)
          [exRaisingTurn] []).2.1 = .errored ∧
      ((requestEvents emptyRegistry "m" (some "m") (some 7)
          [exRaisingTurn] []).filter Event.isErrorStage).length = 1) :=
  ⟨rfl, C2_synthesized_single_error emptyRegistry "m" (some "m") (some 7)
    exRaisingTurn [] [] "boom" rfl⟩

/-- C3: in the emitted event stream of a request, a `finalize_answer` or
`error` event is last and unique: any occurrence of a terminal-stage event
has nothing after it (hence at most one occurs), and whenever the request
reaches a terminal state (it is not cut off by the unbounded-loop script
running out), the last event exists and is terminal. -/
theorem C3_terminal_last_and_unique (reg : ToolRegistry) (model : String)
    (convModel : Option String) (cid : Option Int)
    (scripts : List TurnScript) (messages : List ChatMessage) :
    (∀ (pre : List Event) (t : Event) (post : List Event),
        requestEvents reg model convModel cid scripts messages
          = pre ++ t :: post → t.isTerminal = true → post = []) ∧
    ((streamChat reg model convModel cid scripts messages).2.1
        ≠ .outOfScript →
      ∃ t, (requestEvents reg model convModel cid scripts messages).getLast?
          = some t ∧ t.isTerminal = true) := by
  have hreq : requestEvents reg model convModel cid scripts messages
      = .metadata cid
        :: eventsOf (runLoop reg model convModel scripts messages).1 := by
    simp [requestEvents, streamChat, eventsOf]
  have houtcome : (streamChat reg model convModel cid scripts messages).2.1
      = (runLoop reg model convModel scripts messages).2.1 := by
    simp [streamChat]
  rcases runLoop_terminal_shape reg model convModel scripts messages with
    ⟨ho, hall⟩ | ⟨body, t, hevs, hball, ht, hne⟩
  · constructor
    · intro pre u post hsplit hu
      refine no_terminal_split
        (requestEvents reg model convModel cid scripts messages) ?_
        pre u post hsplit hu
      rw [hreq]
      simp only [List.all_cons, hall, Bool.and_true]
      rfl
    · intro hterm
      rw [houtcome] at hterm
      exact absurd ho hterm
  · constructor
    · intro pre u post hsplit hu
      refine last_only_terminal (.metadata cid :: body) t ?_ pre u post ?_ hu
      · simp only [List.all_cons, hball, Bool.and_true]
        rfl
      · rw [List.cons_append, ← hevs, ← hreq]
        exact hsplit
    · intro _
      refine ⟨t, ?_, ht⟩
      rw [hreq, hevs, ← List.cons_append]
      exact List.getLast?_concat _

/-- C3 witness: the two-turn weather run terminates finalized, its last event
exists and is terminal, and the concrete split at `finalize_answer` has an
empty suffix. -/
theorem C3_witness :
    requestEvents weatherRegistry "m" (some "m") (some 1)
        [exTurnWithCall, exFinalTurn] []
      = [Event.metadata (some 1), Event.content "hi",
          Event.toolResult "get_weather" [("city", JVal.str "Paris")] "sunny",
          Event.thinking "th", Event.content "done"]
        ++ Event.finalizeAnswer :: [] ∧
    Event.isTerminal Event.finalizeAnswer = true ∧
    ([] : List Event) = [] ∧
    ((streamChat weatherRegistry "m" (some "m") (some 1)
        [exTurnWithCall, exFinalTurn] []).2.1 ≠ .outOfScript) ∧
    (∃ t, (requestEvents weatherRegistry "m" (some "m") (some 1)
        [exTurnWithCall, exFinalTurn] []).getLast? = some t ∧
      t.isTerminal = true) :=
  ⟨by decide, rfl, (C3_terminal_last_and_unique weatherRegistry "m"
      (some "m") (some 1) [exTurnWithCall, exFinalTurn] []).1
      [Event.metadata (some 1), Event.content "hi",
        Event.toolResult "get_weather" [("city", JVal.str "Paris")] "sunny",
        Event.thinking "th", Event.content "done"]
      Event.finalizeAnswer [] (by decide) rfl,
    by decide,
    (C3_terminal_last_and_unique weatherRegistry "m" (some "m") (some 1)
      [exTurnWithCall, exFinalTurn] []).2 (by decide)⟩

end LocalAgent
